import Mathlib

/-!
Verification of the responsive breakpoint store and the tab-selection model of
the website layout module
(`src/ui/packages/_website/.svelte-kit/output/server/entries/pages/_layout.svelte.js`).

The breakpoint store (`media_query` in the source) wraps a writable store whose
value is a record mapping breakpoint names to booleans; one viewport listener is
registered per breakpoint when a `window` object exists, and all listeners are
removed in the view-destruction hook.  The tab-selection model (`Demos` in the
source) keeps an ordered list of tab entries and a `current_selection` index;
entry `i` is rendered hidden exactly when `i` differs from `current_selection`.

The store value is embedded as an association list `List (String × Bool)` so
that the JavaScript object-spread update `\x7b...s, [key]: v\x7d` is modelled
faithfully (replace in place when the key exists, append otherwise).  The
writable-store protocol itself (immediate initial notification on subscribe,
notification of all current subscribers on update, unsubscribe handle) is not
part of the fragment's sources; it is modelled from the specification where
noted.
-/

namespace GradioWeb

/-- Breakpoint names mapped to their min-width media queries (`sizes` in the
source). -/
def sizes : List (String × String) :=
  [ ("sm", "(min-width: 640px)")
  , ("md", "(min-width: 768px)")
  , ("lg", "(min-width: 1024px)")
  , ("xl", "(min-width: 1280px)")
  , ("2xl", "(min-width: 1536px)") ]

/-- The initial store value: every breakpoint is `false` (`_default` in the
source). -/
def _default : List (String × Bool) :=
  [ ("sm", false)
  , ("md", false)
  , ("lg", false)
  , ("xl", false)
  , ("2xl", false) ]

/-- The breakpoint names, in registration order (the keys of `sizes`). -/
def bpKeys : List String := sizes.map Prod.fst

/-- Object-spread update `\x7b...s, [key]: v\x7d`: if `key` is present its value
is replaced in place, otherwise the pair is appended. -/
def spreadSet (s : List (String × Bool)) (key : String) (v : Bool) :
    List (String × Bool) :=
  if (s.map Prod.fst).contains key then
    s.map (fun p => if p.1 = key then (p.1, v) else p)
  else
    s ++ [(key, v)]

/-- Property read `s[k]` on the store value: the value at the first occurrence
of key `k`, if any. -/
def getKey (s : List (String × Bool)) (k : String) : Option Bool :=
  (s.find? (fun p => p.1 == k)).map Prod.snd

/-- The per-breakpoint change listener body (`onChange` in the source):
`update((s) => (\x7b...s, [key]: !!listeners[key][0].matches\x7d))`, with `m`
the match state reported by the environment for `key` at event time. -/
def onChange (key : String) (m : Bool) (s : List (String × Bool)) :
    List (String × Bool) :=
  spreadSet s key m

/-- The observable state of one `media_query()` store instance:
the current store value, the breakpoint keys whose viewport listeners are
currently attached, the identifiers of the active subscribers, the history
of snapshots delivered to each subscriber ever registered, and the next
subscriber identifier. -/
structure MQStore where
  state : List (String × Bool)
  attached : List String
  subs : List Nat
  calls : List (Nat × List (List (String × Bool)))
  nextId : Nat
  deriving Repr, DecidableEq

/-- `media_query()` (the source constructor): the store starts at `_default`;
when the host environment has a `window` (viewport-monitoring facility),
one change listener is attached per breakpoint key, otherwise none is. -/
def media_query (envAvailable : Bool) : MQStore :=
  { state := _default
  , attached := if envAvailable then bpKeys else []
  , subs := []
  , calls := []
  , nextId := 0 }

/-- Modelled from the spec: the store's `Subscribe` (the store protocol lives
in a chunk outside the fragment).  A fresh subscriber is registered and the
returned identifier is the unsubscribe handle; its snapshot history starts
empty and snapshots are recorded only when a breakpoint flip notifies it. -/
def subscribeS (st : MQStore) : MQStore × Nat :=
  ( { st with
        subs := st.subs ++ [st.nextId]
      , calls := st.calls ++ [(st.nextId, [])]
      , nextId := st.nextId + 1 }
  , st.nextId )

/-- Modelled from the spec: invoking the unsubscribe handle removes the
subscriber; its recorded history is kept for observation. -/
def unsubscribeS (st : MQStore) (id : Nat) : MQStore :=
  { st with subs := st.subs.filter (fun j => j != id) }

/-- A viewport change event for breakpoint `key` with new match state `m`.
The event is delivered only if a listener for `key` is attached; the listener
runs `onChange`, and the writable store then notifies every current subscriber
with the new value (notification modelled from the spec). -/
def fireChange (st : MQStore) (key : String) (m : Bool) : MQStore :=
  if st.attached.contains key then
    let s' := onChange key m st.state
    { st with
        state := s'
      , calls := st.calls.map (fun c =>
          if st.subs.contains c.1 then (c.1, c.2 ++ [s']) else c) }
  else
    st

/-- The view-destruction hook (`onDestroy` body in the source): every attached
viewport listener is removed. -/
def destroyStore (st : MQStore) : MQStore :=
  { st with attached := [] }

/-- The history of snapshots delivered to subscriber `id` (empty if `id` was
never registered). -/
def callsOf (st : MQStore) (id : Nat) : List (List (String × Bool)) :=
  ((st.calls.find? (fun c => c.1 == id)).map Prod.snd).getD []

/-- An external event applied to a store instance. -/
inductive MQEvent where
  | sub : MQEvent
  | unsub : Nat → MQEvent
  | fire : String → Bool → MQEvent
  | destroy : MQEvent
  deriving Repr, DecidableEq

/-- One step of the store's event-driven behaviour. -/
def step (st : MQStore) : MQEvent → MQStore
  | MQEvent.sub => (subscribeS st).1
  | MQEvent.unsub id => unsubscribeS st id
  | MQEvent.fire k m => fireChange st k m
  | MQEvent.destroy => destroyStore st

/-- Run a sequence of events against a store instance. -/
def run (st : MQStore) (es : List MQEvent) : MQStore :=
  es.foldl step st

/-- Run a sequence of viewport change events only. -/
def fires (st : MQStore) (es : List (String × Bool)) : MQStore :=
  es.foldl (fun s e => fireChange s e.1 e.2) st

/-! ## Tab-selection model (`Demos` in the source) -/

/-- One tab entry: a display title, an optional code snippet (the source uses
`false` for "no snippet"), and the external demo reference. -/
structure TabEntry where
  title : String
  code : Option String
  demo : String
  deriving Repr, DecidableEq

def sketch : String :=
  "<pre class=\"language-python\"><code class=\"language-python\"><span class=\"token keyword\">import</span> gradio <span class=\"token keyword\">as</span> gr\n<span class=\"token keyword\">def</span> <span class=\"token function\">sketch_recognition</span><span class=\"token punctuation\">(</span>img<span class=\"token punctuation\">)</span><span class=\"token punctuation\">:</span>\n    <span class=\"token keyword\">pass</span><span class=\"token comment\"># Implement your sketch recognition model here...</span>\n\ngr<span class=\"token punctuation\">.</span>Interface<span class=\"token punctuation\">(</span>fn<span class=\"token operator\">=</span>sketch_recognition<span class=\"token punctuation\">,</span> inputs<span class=\"token operator\">=</span><span class=\"token string\">\"sketchpad\"</span><span class=\"token punctuation\">,</span> outputs<span class=\"token operator\">=</span><span class=\"token string\">\"label\"</span><span class=\"token punctuation\">).</span>launch<span class=\"token punctuation\">(</span><span class=\"token punctuation\">)</span>\n</code></pre>"

def q_a : String :=
  "<pre class=\"language-python\"><code class=\"language-python\"><span class=\"token keyword\">import</span> gradio <span class=\"token keyword\">as</span> gr\n<span class=\"token keyword\">def</span> <span class=\"token function\">question_answer</span><span class=\"token punctuation\">(</span>context<span class=\"token punctuation\">,</span> question<span class=\"token punctuation\">)</span><span class=\"token punctuation\">:</span>\n<span class=\"token keyword\">pass </span><span class=\"token comment\"> # Implement your question-answering model here...</span>\n\ngr<span class=\"token punctuation\">.</span>Interface<span class=\"token punctuation\">(</span>fn<span class=\"token operator\">=</span>question_answer<span class=\"token punctuation\">,</span> inputs<span class=\"token operator\">=</span><span class=\"token punctuation\">[</span><span class=\"token string\">\"text\"</span><span class=\"token punctuation\">,</span> <span class=\"token string\">\"text\"</span><span class=\"token punctuation\">],</span> outputs<span class=\"token operator\">=</span>[</span><span class=\"token string\">\"textbox\"</span><span class=\"token punctuation\">,</span> <span class=\"token string\">\"text\"</span><span class=\"token punctuation\">]).</span>launch<span class=\"token punctuation\">(</span><span class=\"token punctuation\">)</span>\n</code></pre>"

def img : String :=
  "<pre class=\"language-python\"><code class=\"language-python\"><span class=\"token keyword\">import</span> gradio <span class=\"token keyword\">as</span> gr\n<span class=\"token keyword\">def</span> <span class=\"token function\">segment</span><span class=\"token punctuation\">(</span>image<span class=\"token punctuation\">)</span><span class=\"token punctuation\">:</span>\n<span class=\"token keyword\">pass </span><span class=\"token comment\"> # Implement your image segmentation model here...</span>\n\ngr<span class=\"token punctuation\">.</span>Interface<span class=\"token punctuation\">(</span>fn<span class=\"token operator\">=</span>segment<span class=\"token punctuation\">,</span> inputs<span class=\"token operator\">=</span><span class=\"token string\">\"image\"</span><span class=\"token punctuation\">,</span> outputs<span class=\"token operator\">=</span><span class=\"token string\">\"image\"</span><span class=\"token punctuation\">).</span>launch<span class=\"token punctuation\">(</span><span class=\"token punctuation\">)</span>\n</code></pre>"

/-- The static tab configuration of the `Demos` component. -/
def tabs : List TabEntry :=
  [ { title := "Sketch Recognition", code := some sketch
    , demo := "gradio/pictionary" }
  , { title := "Question Answering", code := some q_a
    , demo := "gradio/question-answering" }
  , { title := "Image Segmentation", code := some img
    , demo := "gradio/Echocardiogram-Segmentation" }
  , { title := "Time Series Forecasting", code := none
    , demo := "gradio/timeseries-forecasting-with-prophet" }
  , { title := "XGBoost with Explainability", code := none
    , demo := "gradio/xgboost-income-prediction-with-explainability" } ]

/-- The tab-selection model: the immutable entries and the index of the
currently visible entry (`current_selection` in the source). -/
structure TabModel where
  entries : List TabEntry
  current_selection : Nat
  deriving Repr, DecidableEq

/-- Initialization of the `Demos` component: `current_selection` starts at 0. -/
def initTabs (es : List TabEntry) : TabModel :=
  { entries := es, current_selection := 0 }

/-- The index of the visible entry. -/
def ActiveIndex (m : TabModel) : Nat :=
  m.current_selection

/-- Entry `j` is rendered visible exactly when `j` equals `current_selection`
(the source hides entry `i` when `i !== current_selection`). -/
def IsActive (m : TabModel) (j : Nat) : Bool :=
  j == m.current_selection

/-- Modelled from the spec: `Select(index)` — the selection mutation and its
bounds check are client-side event-handler code absent from the
server-rendering output.  Fails with an OutOfRange condition when `index` is
not within `[0, length)`; on success the active index becomes `index`. -/
def Select (m : TabModel) (index : Int) : Except String TabModel :=
  if 0 ≤ index ∧ index < (m.entries.length : Int) then
    Except.ok { m with current_selection := index.toNat }
  else
    Except.error "OutOfRange"

/-- The state after a selection attempt: a failed `Select` leaves the model
unchanged. -/
def applySelect (m : TabModel) (index : Int) : TabModel :=
  match Select m index with
  | Except.ok m' => m'
  | Except.error _ => m

/-- Run a sequence of selection attempts. -/
def runSelects (m : TabModel) (is : List Int) : TabModel :=
  is.foldl applySelect m

/-! ## Basic lemmas about the tab-selection model -/

theorem Select_eq_ok (m : TabModel) (i : Int)
    (hc : 0 ≤ i ∧ i < (m.entries.length : Int)) :
    Select m i = Except.ok { m with current_selection := i.toNat } := by
  simp only [Select]
  rw [if_pos hc]

theorem Select_eq_error (m : TabModel) (i : Int)
    (hc : ¬(0 ≤ i ∧ i < (m.entries.length : Int))) :
    Select m i = Except.error "OutOfRange" := by
  simp only [Select]
  rw [if_neg hc]

theorem applySelect_of_ok {m m' : TabModel} {i : Int}
    (h : Select m i = Except.ok m') : applySelect m i = m' := by
  simp [applySelect, h]

theorem applySelect_of_error {m : TabModel} {i : Int} {e : String}
    (h : Select m i = Except.error e) : applySelect m i = m := by
  simp [applySelect, h]

theorem entries_applySelect (m : TabModel) (i : Int) :
    (applySelect m i).entries = m.entries := by
  by_cases hc : 0 ≤ i ∧ i < (m.entries.length : Int)
  · rw [applySelect_of_ok (Select_eq_ok m i hc)]
  · rw [applySelect_of_error (Select_eq_error m i hc)]

theorem applySelect_sel_lt (m : TabModel) (i : Int)
    (h : m.current_selection < m.entries.length) :
    (applySelect m i).current_selection < m.entries.length := by
  by_cases hc : 0 ≤ i ∧ i < (m.entries.length : Int)
  · rw [applySelect_of_ok (Select_eq_ok m i hc)]
    show i.toNat < m.entries.length
    have h1 := hc.1
    have h2 := hc.2
    omega
  · rw [applySelect_of_error (Select_eq_error m i hc)]
    exact h

theorem runSelects_cons (m : TabModel) (i : Int) (is : List Int) :
    runSelects m (i :: is) = runSelects (applySelect m i) is := rfl

/-! ## Claims about the tab-selection model -/

/-- C1: for every tab collection and every valid index `i`, `Select i`
succeeds, the active index afterwards is `i`, `IsActive j` holds exactly for
`j = i`, and the default active index after initialization is 0. -/
theorem select_then_active (m : TabModel) (i : Nat) (h : i < m.entries.length) :
    Select m (i : Int) = Except.ok { m with current_selection := i } ∧
    ActiveIndex (applySelect m (i : Int)) = i ∧
    (∀ j : Nat, IsActive (applySelect m (i : Int)) j = true ↔ j = i) ∧
    (∀ es : List TabEntry, ActiveIndex (initTabs es) = 0) := by
  have hc : (0 : Int) ≤ (i : Int) ∧ (i : Int) < (m.entries.length : Int) :=
    ⟨Int.ofNat_nonneg i, by exact_mod_cast h⟩
  have hsel : Select m (i : Int) = Except.ok { m with current_selection := i } := by
    rw [Select_eq_ok m (i : Int) hc]
    simp
  refine ⟨hsel, ?_, ?_, fun es => rfl⟩
  · rw [applySelect_of_ok hsel]
    rfl
  · intro j
    rw [applySelect_of_ok hsel]
    simp [IsActive]

theorem select_then_active_witness :
    (2 : Nat) < (initTabs tabs).entries.length ∧
    ActiveIndex (applySelect (initTabs tabs) ((2 : Nat) : Int)) = 2 :=
  ⟨by decide, (select_then_active (initTabs tabs) 2 (by decide)).2.1⟩

/-- C2: for every index outside `[0, length)`, `Select` fails with
OutOfRange, no mutation occurs, and the prior active index is unchanged. -/
theorem select_out_of_range (m : TabModel) (index : Int)
    (h : index < 0 ∨ (m.entries.length : Int) ≤ index) :
    Select m index = Except.error "OutOfRange" ∧
    applySelect m index = m ∧
    ActiveIndex (applySelect m index) = ActiveIndex m := by
  have hc : ¬(0 ≤ index ∧ index < (m.entries.length : Int)) := by omega
  have hsel := Select_eq_error m index hc
  exact ⟨hsel, applySelect_of_error hsel, by rw [applySelect_of_error hsel]⟩

theorem select_out_of_range_witness :
    ((5 : Int) < 0 ∨
      (((applySelect (initTabs tabs) 2).entries.length : Nat) : Int) ≤ 5) ∧
    applySelect (applySelect (initTabs tabs) 2) 5 = applySelect (initTabs tabs) 2 := by
  have h : ((5 : Int) < 0 ∨
      (((applySelect (initTabs tabs) 2).entries.length : Nat) : Int) ≤ 5) := by
    right
    rw [entries_applySelect]
    decide
  exact ⟨h, (select_out_of_range (applySelect (initTabs tabs) 2) 5 h).2.1⟩

/-- C9: from initialization, after any sequence of selection attempts the
entries are unchanged, the active index is a valid index into the sequence,
and the set of active indices is exactly the singleton of the active index. -/
theorem selection_invariant (es : List TabEntry) (h : 0 < es.length)
    (is : List Int) :
    (runSelects (initTabs es) is).entries = es ∧
    ActiveIndex (runSelects (initTabs es) is) < es.length ∧
    ∀ j : Nat, IsActive (runSelects (initTabs es) is) j = true ↔
      j = ActiveIndex (runSelects (initTabs es) is) := by
  have key : ∀ (is' : List Int) (m : TabModel), m.entries = es →
      m.current_selection < es.length →
      (runSelects m is').entries = es ∧
      (runSelects m is').current_selection < es.length := by
    intro is'
    induction is' with
    | nil => intro m h1 h2; exact ⟨h1, h2⟩
    | cons i rest ih =>
      intro m h1 h2
      rw [runSelects_cons]
      apply ih
      · rw [entries_applySelect]; exact h1
      · have := applySelect_sel_lt m i (by rw [h1]; exact h2)
        rw [h1] at this
        exact this
  have hmain := key is (initTabs es) rfl h
  exact ⟨hmain.1, hmain.2, fun j => by simp [IsActive, ActiveIndex]⟩

theorem selection_invariant_witness :
    (0 : Nat) < tabs.length ∧
    ActiveIndex (runSelects (initTabs tabs) [2, 5, -1]) < tabs.length :=
  ⟨by decide, (selection_invariant tabs (by decide) [2, 5, -1]).2.1⟩

/-! ## Basic lemmas about the store value as an association list -/

theorem getKey_cons_self (p : String × Bool) (s : List (String × Bool))
    (k : String) (h : p.1 = k) : getKey (p :: s) k = some p.2 := by
  unfold getKey
  rw [List.find?_cons_of_pos _ (by simp [h])]
  rfl

theorem getKey_cons_ne (p : String × Bool) (s : List (String × Bool))
    (k : String) (h : p.1 ≠ k) : getKey (p :: s) k = getKey s k := by
  unfold getKey
  rw [List.find?_cons_of_neg _ (by simp [h])]

theorem getKey_map_update (s : List (String × Bool)) (key : String) (v : Bool)
    (h : key ∈ s.map Prod.fst) :
    getKey (s.map (fun p => if p.1 = key then (p.1, v) else p)) key = some v := by
  induction s with
  | nil => simp at h
  | cons p rest ih =>
    simp only [List.map_cons, List.mem_cons] at h
    rw [List.map_cons]
    by_cases hpk : p.1 = key
    · rw [if_pos hpk]
      exact getKey_cons_self (p.1, v) _ key hpk
    · rw [if_neg hpk, getKey_cons_ne p _ key hpk]
      apply ih
      rcases h with h1 | h1
      · exact absurd h1.symm hpk
      · exact h1

theorem getKey_map_update_ne (s : List (String × Bool)) (key : String) (v : Bool)
    (k : String) (h : k ≠ key) :
    getKey (s.map (fun p => if p.1 = key then (p.1, v) else p)) k = getKey s k := by
  induction s with
  | nil => rfl
  | cons p rest ih =>
    rw [List.map_cons]
    by_cases hpk : p.1 = key
    · have hne : p.1 ≠ k := by rw [hpk]; exact fun e => h e.symm
      rw [if_pos hpk, getKey_cons_ne (p.1, v) _ k hne, getKey_cons_ne p _ k hne]
      exact ih
    · rw [if_neg hpk]
      by_cases hp2 : p.1 = k
      · rw [getKey_cons_self p _ k hp2, getKey_cons_self p _ k hp2]
      · rw [getKey_cons_ne p _ k hp2, getKey_cons_ne p _ k hp2]
        exact ih

theorem getKey_append_right (s : List (String × Bool)) (key : String) (v : Bool)
    (h : key ∉ s.map Prod.fst) :
    getKey (s ++ [(key, v)]) key = some v := by
  induction s with
  | nil => exact getKey_cons_self (key, v) [] key rfl
  | cons p rest ih =>
    simp only [List.map_cons, List.mem_cons] at h
    push_neg at h
    rw [List.cons_append, getKey_cons_ne p _ key (fun e => h.1 e.symm)]
    exact ih h.2

theorem getKey_append_ne (s : List (String × Bool)) (key : String) (v : Bool)
    (k : String) (h : k ≠ key) :
    getKey (s ++ [(key, v)]) k = getKey s k := by
  induction s with
  | nil =>
    rw [List.nil_append, getKey_cons_ne (key, v) [] k (fun e => h e.symm)]
  | cons p rest ih =>
    by_cases hpk : p.1 = k
    · rw [List.cons_append, getKey_cons_self p _ k hpk, getKey_cons_self p _ k hpk]
    · rw [List.cons_append, getKey_cons_ne p _ k hpk, getKey_cons_ne p _ k hpk]
      exact ih

theorem getKey_spreadSet_self (s : List (String × Bool)) (key : String)
    (v : Bool) : getKey (spreadSet s key v) key = some v := by
  unfold spreadSet
  split
  · next hc => exact getKey_map_update s key v (by simpa using hc)
  · next hc => exact getKey_append_right s key v (by simpa using hc)

theorem getKey_spreadSet_ne (s : List (String × Bool)) (key : String) (v : Bool)
    (k : String) (h : k ≠ key) : getKey (spreadSet s key v) k = getKey s k := by
  unfold spreadSet
  split
  · exact getKey_map_update_ne s key v k h
  · exact getKey_append_ne s key v k h

theorem map_fst_spreadMap (s : List (String × Bool)) (key : String) (v : Bool) :
    (s.map (fun p => if p.1 = key then (p.1, v) else p)).map Prod.fst
      = s.map Prod.fst := by
  induction s with
  | nil => rfl
  | cons p rest ih =>
    simp only [List.map_cons, ih, List.cons.injEq, and_true]
    split <;> rfl

theorem keys_spreadSet (s : List (String × Bool)) (key : String) (v : Bool)
    (h : key ∈ s.map Prod.fst) :
    (spreadSet s key v).map Prod.fst = s.map Prod.fst := by
  unfold spreadSet
  rw [if_pos (by simpa using h)]
  exact map_fst_spreadMap s key v

/-! ## Lemmas about the store state machine -/

theorem fireChange_subs (st : MQStore) (key : String) (m : Bool) :
    (fireChange st key m).subs = st.subs := by
  unfold fireChange
  split <;> rfl

theorem fireChange_attached (st : MQStore) (key : String) (m : Bool) :
    (fireChange st key m).attached = st.attached := by
  unfold fireChange
  split <;> rfl

theorem fireChange_of_not_attached {st : MQStore} {key : String} (m : Bool)
    (h : key ∉ st.attached) : fireChange st key m = st := by
  unfold fireChange
  rw [if_neg (by simpa using h)]

theorem fireChange_state_of_attached {st : MQStore} {key : String} (m : Bool)
    (h : key ∈ st.attached) :
    (fireChange st key m).state = onChange key m st.state := by
  unfold fireChange
  rw [if_pos (by simpa using h)]

theorem find?_fst_map (l : List (Nat × List (List (String × Bool))))
    (f : Nat × List (List (String × Bool)) → Nat × List (List (String × Bool)))
    (hf : ∀ c, (f c).1 = c.1) (n : Nat) :
    (l.map f).find? (fun c => c.1 == n) = (l.find? (fun c => c.1 == n)).map f := by
  induction l with
  | nil => rfl
  | cons c rest ih =>
    rw [List.map_cons]
    by_cases hc : c.1 = n
    · rw [List.find?_cons_of_pos _ (by simp [hf c, hc]),
        List.find?_cons_of_pos _ (by simp [hc])]
      rfl
    · rw [List.find?_cons_of_neg _ (by simp [hf c, hc]),
        List.find?_cons_of_neg _ (by simp [hc])]
      exact ih

theorem callsOf_fireChange_subscribed (st : MQStore) (key : String) (m : Bool)
    (n : Nat) (hk : key ∈ st.attached) (hn : n ∈ st.subs)
    (hc : (st.calls.find? (fun c => c.1 == n)).isSome) :
    callsOf (fireChange st key m) n = callsOf st n ++ [onChange key m st.state] := by
  unfold fireChange
  rw [if_pos (by simpa using hk)]
  unfold callsOf
  rw [find?_fst_map _ _ (fun c => by split <;> rfl) n]
  cases hfind : st.calls.find? (fun c => c.1 == n) with
  | none => rw [hfind] at hc; cases hc
  | some c =>
    have hc1 : c.1 = n := by simpa using List.find?_some hfind
    simp [hfind, hc1, hn]

theorem callsOf_fireChange_not_subscribed (st : MQStore) (key : String)
    (m : Bool) (n : Nat) (hn : n ∉ st.subs) :
    callsOf (fireChange st key m) n = callsOf st n := by
  unfold fireChange
  split
  · unfold callsOf
    rw [find?_fst_map _ _ (fun c => by split <;> rfl) n]
    cases hfind : st.calls.find? (fun c => c.1 == n) with
    | none => simp
    | some c =>
      have hc1 : c.1 = n := by simpa using List.find?_some hfind
      simp [hfind, hc1, hn]
  · rfl

theorem fires_cons (st : MQStore) (e : String × Bool) (es : List (String × Bool)) :
    fires st (e :: es) = fires (fireChange st e.1 e.2) es := rfl

theorem callsOf_fires_not_subscribed (st : MQStore) (n : Nat)
    (es : List (String × Bool)) (hn : n ∉ st.subs) :
    callsOf (fires st es) n = callsOf st n := by
  induction es generalizing st with
  | nil => rfl
  | cons e rest ih =>
    rw [fires_cons,
      ih (fireChange st e.1 e.2) (by rw [fireChange_subs]; exact hn)]
    exact callsOf_fireChange_not_subscribed st e.1 e.2 n hn

theorem run_cons (st : MQStore) (e : MQEvent) (es : List MQEvent) :
    run st (e :: es) = run (step st e) es := rfl

theorem run_of_attached_nil (st : MQStore) (es : List MQEvent)
    (h : st.attached = []) :
    (run st es).state = st.state ∧ (run st es).attached = [] := by
  induction es generalizing st with
  | nil => exact ⟨rfl, h⟩
  | cons e rest ih =>
    have hstep : (step st e).state = st.state ∧ (step st e).attached = [] := by
      cases e with
      | sub => exact ⟨rfl, h⟩
      | unsub n => exact ⟨rfl, h⟩
      | destroy => exact ⟨rfl, rfl⟩
      | fire k m =>
        rw [step,
          fireChange_of_not_attached m (by rw [h]; exact List.not_mem_nil k)]
        exact ⟨rfl, h⟩
    have hrest := ih (step st e) hstep.2
    rw [run_cons]
    exact ⟨hstep.1 ▸ hrest.1, hrest.2⟩

/-- The store-value key set is the breakpoint registry and every attached
listener belongs to it. -/
def KeysInv (st : MQStore) : Prop :=
  st.state.map Prod.fst = bpKeys ∧ ∀ k ∈ st.attached, k ∈ bpKeys

theorem step_keysInv (st : MQStore) (e : MQEvent) (h : KeysInv st) :
    KeysInv (step st e) := by
  cases e with
  | sub => exact ⟨h.1, h.2⟩
  | unsub n => exact ⟨h.1, h.2⟩
  | destroy => exact ⟨h.1, fun k hk => absurd hk (List.not_mem_nil k)⟩
  | fire k m =>
    show KeysInv (fireChange st k m)
    by_cases hk : k ∈ st.attached
    · constructor
      · rw [fireChange_state_of_attached m hk]
        unfold onChange
        rw [keys_spreadSet st.state k m (by rw [h.1]; exact h.2 k hk)]
        exact h.1
      · rw [fireChange_attached]
        exact h.2
    · rw [fireChange_of_not_attached m hk]
      exact h

theorem run_keysInv (st : MQStore) (es : List MQEvent) (h : KeysInv st) :
    KeysInv (run st es) := by
  induction es generalizing st with
  | nil => exact h
  | cons e rest ih =>
    rw [run_cons]
    exact ih (step st e) (step_keysInv st e h)

/-! ## Claims about the breakpoint store -/

/-- C3: before any viewport evaluation, the store value is the `_default`
constant, and reading any registered breakpoint name yields `false`;
the all-false cold-start state is the initial value of the store, not a
computed match result. -/
theorem initial_state_all_false (env : Bool) :
    (media_query env).state = _default ∧
    ∀ k, k ∈ bpKeys → getKey (media_query env).state k = some false := by
  refine ⟨rfl, fun k hk => ?_⟩
  show getKey _default k = some false
  simp only [bpKeys, sizes, List.map_cons, List.map_nil, List.mem_cons,
    List.not_mem_nil, or_false] at hk
  rcases hk with rfl | rfl | rfl | rfl | rfl <;> rfl

theorem initial_state_all_false_witness :
    "lg" ∈ bpKeys ∧ getKey (media_query false).state "lg" = some false :=
  ⟨by decide, (initial_state_all_false false).2 "lg" (by decide)⟩

/-- C4: when the host environment offers no viewport-monitoring facility,
initialization attaches no listener (and raises no error: the constructor is
total), and after any sequence of events the store value is still the fixed
all-false `_default` state. -/
theorem env_unavailable_degrades (es : List MQEvent) :
    (media_query false).attached = [] ∧
    (run (media_query false) es).state = _default ∧
    ∀ k, k ∈ bpKeys → getKey (run (media_query false) es).state k = some false := by
  have h := run_of_attached_nil (media_query false) es rfl
  refine ⟨rfl, h.1, fun k hk => ?_⟩
  rw [h.1]
  show getKey _default k = some false
  simp only [bpKeys, sizes, List.map_cons, List.map_nil, List.mem_cons,
    List.not_mem_nil, or_false] at hk
  rcases hk with rfl | rfl | rfl | rfl | rfl <;> rfl

theorem env_unavailable_degrades_witness :
    "lg" ∈ bpKeys ∧
    getKey (run (media_query false) [MQEvent.fire "lg" true]).state "lg"
      = some false :=
  ⟨by decide, (env_unavailable_degrades [MQEvent.fire "lg" true]).2.2 "lg" (by decide)⟩

/-- C5: when a match-change event fires for an attached breakpoint key, every
subscriber registered before the event receives one further snapshot: the new
store value, in which that key carries the new match value and every other key
is unchanged from the prior state. -/
theorem flip_notifies_subscribers (st : MQStore) (key : String) (m : Bool)
    (n : Nat) (hk : key ∈ st.attached) (hn : n ∈ st.subs)
    (hc : (st.calls.find? (fun c => c.1 == n)).isSome) :
    callsOf (fireChange st key m) n = callsOf st n ++ [onChange key m st.state] ∧
    getKey (onChange key m st.state) key = some m ∧
    ∀ k, k ≠ key → getKey (onChange key m st.state) k = getKey st.state k :=
  ⟨ callsOf_fireChange_subscribed st key m n hk hn hc
  , getKey_spreadSet_self st.state key m
  , fun k hkk => getKey_spreadSet_ne st.state key m k hkk ⟩

theorem flip_notifies_subscribers_witness :
    ("lg" ∈ ((subscribeS (media_query true)).1).attached ∧
      0 ∈ ((subscribeS (media_query true)).1).subs) ∧
    callsOf (fireChange (subscribeS (media_query true)).1 "lg" true) 0 =
      callsOf (subscribeS (media_query true)).1 0 ++
        [onChange "lg" true ((subscribeS (media_query true)).1).state] :=
  ⟨⟨by decide, by decide⟩,
    (flip_notifies_subscribers (subscribeS (media_query true)).1 "lg" true 0
      (by decide) (by decide) (by decide)).1⟩

/-- C6: initialization with a viewport facility attaches one watcher per
breakpoint name; the destruction hook releases them all, calling it a second
time is a no-op, and no listener fires after the first call (a change event
against a torn-down store leaves it unchanged). -/
theorem teardown_idempotent (st : MQStore) (key : String) (m : Bool) :
    (media_query true).attached = bpKeys ∧
    (destroyStore st).attached = [] ∧
    destroyStore (destroyStore st) = destroyStore st ∧
    fireChange (destroyStore st) key m = destroyStore st := by
  refine ⟨rfl, rfl, rfl, ?_⟩
  exact fireChange_of_not_attached m (List.not_mem_nil key)

/-- C7: once a subscriber is unsubscribed, any sequence of subsequent
breakpoint flips leaves its call history — hence its call count — unchanged. -/
theorem unsubscribe_no_further_calls (st : MQStore) (n : Nat)
    (es : List (String × Bool)) :
    callsOf (fires (unsubscribeS st n) es) n = callsOf st n := by
  have h1 : n ∉ (unsubscribeS st n).subs := by
    simp [unsubscribeS, List.mem_filter]
  rw [callsOf_fires_not_subscribed _ n es h1]
  rfl

/-- C8: the set of breakpoint keys of the store value is exactly
sm, md, lg, xl, 2xl at construction and after any sequence of events; and a
change-listener update for an existing key never adds or removes a key. -/
theorem breakpoint_keys_fixed (env : Bool) (es : List MQEvent) :
    (media_query env).state.map Prod.fst = bpKeys ∧
    (run (media_query env) es).state.map Prod.fst = bpKeys ∧
    ∀ (s : List (String × Bool)) (key : String) (v : Bool),
      key ∈ s.map Prod.fst →
      (onChange key v s).map Prod.fst = s.map Prod.fst := by
  have h0 : KeysInv (media_query env) := by
    constructor
    · rfl
    · cases env
      · intro k hk
        exact absurd hk (List.not_mem_nil k)
      · intro k hk
        exact hk
  exact ⟨h0.1, (run_keysInv _ es h0).1,
    fun s key v hk => keys_spreadSet s key v hk⟩

theorem breakpoint_keys_fixed_witness :
    "lg" ∈ _default.map Prod.fst ∧
    (onChange "lg" true _default).map Prod.fst = _default.map Prod.fst :=
  ⟨by decide,
    (breakpoint_keys_fixed true [MQEvent.fire "lg" true]).2.2 _default "lg" true
      (by decide)⟩

end GradioWeb
